import Mathlib

/-!
# Verification of the `bitcoin-block-finder` decoding core

Shallow embedding of the binary decoding/scanning engine of the
`bitcoin-block-finder` repository (`src/main.rs`, `src/util/types.rs`,
`src/util/constant.rs`) together with proofs about the claims of its
specification.

## Representation choices

* A Rust `Vec<u8>` that the program consumes by repeated `pop()` calls is
  modelled as a `List Nat` listing the vector's bytes **in pop order**
  (last vector element first).  `find_block` reverses the file bytes once
  before any `pop`, so the pop-order list of that reversed vector is the
  file's bytes in file order: `find_block` below therefore receives the
  stream in file order.  A vector built by `collect`ing popped bytes holds
  them in pop order, i.e. the collected `List Nat` coincides with the
  Rust vector's index order; when such a vector is itself popped from
  (as `BlockHeader::from_raw_bytes` does) the embedding pops from the
  reversed list.
* Bytes are `Nat`s; the `u8` range appears as explicit `< 256` hypotheses
  where the value range matters.
* A Rust panic (`expect`, arithmetic overflow) is the `RunError.panicked`
  error, an `anyhow::bail!`/`anyhow!` error returned to the caller is
  `RunError.bail`.  The printing side (`log`) is dropped: the scanner
  returns the `BlockInfo` and `Block` it would print.
* Rust hexadecimal strings (`encode_hex`, the `MAINNET_HEX` constant) are
  modelled as lists of hex-digit values (two digits per byte); byte-for-byte
  this is the same information as the lowercase hex string, and string
  equality coincides with digit-list equality.
-/

/-- Remove `n` elements from the front of a pop-order list, returning them
in pop order together with the remaining buffer; `none` when fewer than `n`
elements remain (in the source the loop `(0..n).map(|_| buf.pop().expect(..))`,
whose missing-byte `expect` is the `none` case: the pops are all-or-nothing
because the panic aborts before any value is produced). -/
def popN (n : Nat) (l : List Nat) : Option (List Nat × List Nat) :=
  if n ≤ l.length then some (l.take n, l.drop n) else none

theorem popN_eq_some_iff {n : Nat} {l t r : List Nat} :
    popN n l = some (t, r) ↔ n ≤ l.length ∧ t = l.take n ∧ r = l.drop n := by
  constructor
  · intro h
    unfold popN at h
    split at h
    · rename_i hle
      simp only [Option.some.injEq, Prod.mk.injEq] at h
      exact ⟨hle, h.1.symm, h.2.symm⟩
    · exact absurd h (by simp)
  · rintro ⟨hle, rfl, rfl⟩
    unfold popN
    rw [if_pos hle]

theorem popN_take {n : Nat} {l : List Nat} (h : n ≤ l.length) :
    popN n l = some (l.take n, l.drop n) :=
  popN_eq_some_iff.mpr ⟨h, rfl, rfl⟩

theorem popN_append (l₁ l₂ : List Nat) : popN l₁.length (l₁ ++ l₂) = some (l₁, l₂) := by
  unfold popN
  rw [if_pos (by simp)]
  rw [List.take_left, List.drop_left]

theorem popN_append_of_len {n : Nat} {l₁ : List Nat} (l₂ : List Nat)
    (h : l₁.length = n) : popN n (l₁ ++ l₂) = some (l₁, l₂) := by
  subst h; exact popN_append l₁ l₂

theorem popN_some_len {n : Nat} {l t r : List Nat} (h : popN n l = some (t, r)) :
    t.length = n ∧ r.length + n = l.length := by
  obtain ⟨hle, ht, hr⟩ := popN_eq_some_iff.mp h
  subst ht hr
  simp only [List.length_take, List.length_drop]
  omega

/-! ## Byte widths and the network constant (`src/util/constant.rs`) -/

def MAGIC_BYTES : Nat := 4
def BLOCK_SIZE : Nat := 4
def BLOCK_HEADER : Nat := 80
def TX_COUNT : Nat := 4
def BLOCK_HEADER_VERSION : Nat := 4
def PREVIOUS_BLOCK_HEADER_HASH : Nat := 32
def MERKLE_ROOT_HASH : Nat := 32
def UNIX_EPOCH_TIME : Nat := 4
def TARGET : Nat := 4
def NONCE : Nat := 4

/-- The constant `MAINNET_HEX = "f9beb4d9"`, as the list of its hex-digit
values. -/
def MAINNET_HEX : List Nat := [15, 9, 11, 14, 11, 4, 13, 9]

/-! ## Hexadecimal encoding and `u32::from_str_radix` -/

/-- `hex::ToHex::encode_hex` on one byte: its two lowercase hex digits
(as digit values). -/
def byteToHexDigits (b : Nat) : List Nat := [b / 16, b % 16]

/-- `encode_hex` on a byte vector: the concatenation of each byte's two
hex digits. -/
def encodeHexDigits : List Nat → List Nat
  | [] => []
  | b :: bs => b / 16 :: b % 16 :: encodeHexDigits bs

/-- One step of `u32::from_str_radix(s, 16)`: fold in a digit, failing on a
non-hex digit or on overflow past `u32::MAX` (Rust checks overflow with
checked multiply/add at every step, which is equivalent to this combined
check). -/
def pushDigit16 (acc : Option Nat) (d : Nat) : Option Nat :=
  match acc with
  | none => none
  | some v => if d < 16 then (if v * 16 + d < 2 ^ 32 then some (v * 16 + d) else none) else none

/-- `u32::from_str_radix(s, 16)` on a digit-value list: `none` on the empty
string, on an invalid digit, or on overflow. -/
def fromStrRadix16 (digits : List Nat) : Option Nat :=
  if digits.isEmpty then none
  else digits.foldl pushDigit16 (some 0)

theorem pushDigit16_some {v d : Nat} (hd : d < 16) (hv : v * 16 + d < 2 ^ 32) :
    pushDigit16 (some v) d = some (v * 16 + d) := by
  have hv2 : v * 16 + d < 4294967296 := by omega
  simp [pushDigit16, hd, hv2]

/-- Evaluation of `from_str_radix` on the hex encoding of four bytes:
the stream-order (big-endian) value of the four bytes. -/
theorem fromStrRadix16_encode4 (a b c d : Nat)
    (ha : a < 256) (hb : b < 256) (hc : c < 256) (hd : d < 256) :
    fromStrRadix16 (encodeHexDigits [a, b, c, d]) =
      some (((a * 256 + b) * 256 + c) * 256 + d) := by
  simp only [encodeHexDigits, fromStrRadix16, List.isEmpty, Bool.false_eq_true,
    if_false, List.foldl]
  rw [pushDigit16_some (by omega) (by omega)]
  rw [pushDigit16_some (by omega) (by omega)]
  rw [pushDigit16_some (by omega) (by omega)]
  rw [pushDigit16_some (by omega) (by omega)]
  rw [pushDigit16_some (by omega) (by omega)]
  rw [pushDigit16_some (by omega) (by omega)]
  rw [pushDigit16_some (by omega) (by omega)]
  rw [pushDigit16_some (by omega) (by omega)]
  congr 1
  omega

/-! ## Errors -/

/-- Outcomes of the fallible / aborting paths of the program.
`panicked msg` models a Rust panic (an `expect` failure or a checked
arithmetic overflow): the process terminates.  `bail msg` models an
`anyhow` error value returned to the caller (`anyhow::bail!` /
`anyhow::anyhow!`). -/
inductive RunError where
  | panicked (msg : String)
  | bail (msg : String)
deriving DecidableEq, Repr

/-! ## `BlockInfo` (`src/util/types.rs`) -/

structure BlockInfo where
  height : Nat
  magic_bytes : List Nat
  size : List Nat
deriving DecidableEq, Repr

/-- `BlockInfo::size_as_u32`: reverse the 4 size bytes, hex-encode, parse
with `from_str_radix(_, 16)`.  `none` is the `expect("unable to convert hex
to u32")` panic. -/
def BlockInfo.size_as_u32 (bi : BlockInfo) : Option Nat :=
  fromStrRadix16 (encodeHexDigits bi.size.reverse)

/-- `BlockInfo::network_hex`: the magic bytes hex-encoded in stream order. -/
def BlockInfo.network_hex (bi : BlockInfo) : List Nat :=
  encodeHexDigits bi.magic_bytes

/-- `BlockInfo::validate_network`: `bail!` unless the hex of the magic
bytes equals `MAINNET_HEX`. -/
def BlockInfo.validate_network (bi : BlockInfo) : Except RunError Unit :=
  if bi.network_hex ≠ MAINNET_HEX then .error (.bail "network validation failed")
  else .ok ()

/-- `BlockInfo::from_raw_bytes`: pop `MAGIC_BYTES` bytes, then `BLOCK_SIZE`
bytes, from the (pop-order) buffer; each missing byte is an `expect`
panic.  Returns the decoded `BlockInfo` and the remaining buffer. -/
def BlockInfo.from_raw_bytes (raw_bytes : List Nat) (height : Nat) :
    Except RunError (BlockInfo × List Nat) :=
  match popN MAGIC_BYTES raw_bytes with
  | none => .error (.panicked "expected a value for magic_bytes")
  | some (magic_bytes, rest) =>
    match popN BLOCK_SIZE rest with
    | none => .error (.panicked "expected a value for size")
    | some (size, rest2) => .ok (BlockInfo.mk height magic_bytes size, rest2)

/-! ## `BlockHeader` (`src/util/types.rs`) -/

structure BlockHeader where
  version : List Nat
  previous_block_header_hash : List Nat
  merkle_root_hash : List Nat
  unix_epoch_time : List Nat
  target : List Nat
  nonce : List Nat
deriving DecidableEq, Repr

/-- `BlockHeader::from_raw_bytes`: the input is the collected 80-byte
header vector in its index order (= file order); the source pops from the
**end** of that vector, so the embedding pops from the reversed list.
Fields are popped in declaration order: version, previous hash, merkle
hash, unix epoch time, target, nonce. -/
def BlockHeader.from_raw_bytes (raw_block_header : List Nat) :
    Except RunError BlockHeader :=
  match popN BLOCK_HEADER_VERSION raw_block_header.reverse with
  | none => .error (.panicked "expected a value for version")
  | some (version, r1) =>
    match popN PREVIOUS_BLOCK_HEADER_HASH r1 with
    | none => .error (.panicked "expected a value for previous hash")
    | some (previous_block_header_hash, r2) =>
      match popN MERKLE_ROOT_HASH r2 with
      | none => .error (.panicked "expected a value for merkle hash")
      | some (merkle_root_hash, r3) =>
        match popN UNIX_EPOCH_TIME r3 with
        | none => .error (.panicked "expected a value for unix epoch time")
        | some (unix_epoch_time, r4) =>
          match popN TARGET r4 with
          | none => .error (.panicked "expected a value for target")
          | some (target, r5) =>
            match popN NONCE r5 with
            | none => .error (.panicked "expected a value for nonce")
            | some (nonce, _) =>
              .ok (BlockHeader.mk version previous_block_header_hash
                merkle_root_hash unix_epoch_time target nonce)

/-- `BlockHeader::version()` (named `version_u32` here because the struct
field is already called `version`): hex of the stored bytes, no reversal,
parsed as `u32`. -/
def BlockHeader.version_u32 (bh : BlockHeader) : Option Nat :=
  fromStrRadix16 (encodeHexDigits bh.version)

/-- `BlockHeader::previous_block_header_hash()`: hex digest, stream order. -/
def BlockHeader.previous_hash_hex (bh : BlockHeader) : List Nat :=
  encodeHexDigits bh.previous_block_header_hash

/-- `BlockHeader::merkle_root_hash()`: hex digest, stream order. -/
def BlockHeader.merkle_root_hash_hex (bh : BlockHeader) : List Nat :=
  encodeHexDigits bh.merkle_root_hash

/-- `BlockHeader::unix_epoch_time()`: hex of the stored bytes, no reversal,
parsed as `u32`. -/
def BlockHeader.unix_epoch_time_u32 (bh : BlockHeader) : Option Nat :=
  fromStrRadix16 (encodeHexDigits bh.unix_epoch_time)

/-- `BlockHeader::target()`: hex of the stored bytes, no reversal, parsed
as `u32`. -/
def BlockHeader.target_u32 (bh : BlockHeader) : Option Nat :=
  fromStrRadix16 (encodeHexDigits bh.target)

/-- `BlockHeader::nonce()`: hex of the stored bytes, no reversal, parsed
as `u32`. -/
def BlockHeader.nonce_u32 (bh : BlockHeader) : Option Nat :=
  fromStrRadix16 (encodeHexDigits bh.nonce)

/-! ## `Block` (`src/util/types.rs`) -/

structure Block where
  block_header : BlockHeader
  tx_count : List Nat
  tx_data : List Nat
deriving DecidableEq, Repr

/-- Wrapping `u32` subtraction.  The source computes
`block_size - (BLOCK_HEADER + TX_COUNT)` on `u32`; when
`block_size < 84` this panics in a debug build ("attempt to subtract with
overflow") and wraps modulo `2^32` in a release build.  We model the
wrapping semantics, written without `%` (for a `u32` minuend `a < 2^32`
this branch form is exactly `(a + 2^32 - b) % 2^32`); in the underflow
case the wrapped count exceeds any real buffer, so the subsequent
`tx_data` pops panic anyway. -/
def sub32 (a b : Nat) : Nat := if b ≤ a then a - b else a + (2 ^ 32 - b)

theorem sub32_of_le {a b : Nat} (hba : b ≤ a) : sub32 a b = a - b := by
  unfold sub32
  rw [if_pos hba]

/-- `Block::from_raw_bytes`: pop 80 bytes (collected in pop order) and
decode them as a `BlockHeader`, pop 4 bytes as `tx_count`, pop
`block_size - (BLOCK_HEADER + TX_COUNT)` bytes as `tx_data`; any missing
byte is an `expect` panic.  Returns the `Block` and the remaining
buffer. -/
def Block.from_raw_bytes (raw_bytes : List Nat) (block_size : Nat) :
    Except RunError (Block × List Nat) :=
  match popN BLOCK_HEADER raw_bytes with
  | none => .error (.panicked "expected a value for block_header")
  | some (raw_block_header, rest) =>
    match BlockHeader.from_raw_bytes raw_block_header with
    | .error e => .error e
    | .ok block_header =>
      match popN TX_COUNT rest with
      | none => .error (.panicked "expected a value for tx_count")
      | some (tx_count, rest2) =>
        match popN (sub32 block_size (BLOCK_HEADER + TX_COUNT)) rest2 with
        | none => .error (.panicked "expected a value for tx_data")
        | some (tx_data, rest3) =>
          .ok (Block.mk block_header tx_count tx_data, rest3)

/-- `Block::tx_count()` (named `tx_count_u32` here because the struct field
is already called `tx_count`): hex of the stored bytes, no reversal,
parsed as `u32`. -/
def Block.tx_count_u32 (b : Block) : Option Nat :=
  fromStrRadix16 (encodeHexDigits b.tx_count)

/-! ## Length facts for the decoders (needed for the scanner's termination) -/

theorem BlockInfo.from_raw_bytes_head_len {buf : List Nat} {hgt : Nat} {bi : BlockInfo}
    {rest : List Nat} (he : BlockInfo.from_raw_bytes buf hgt = .ok (bi, rest)) :
    rest.length + 8 = buf.length := by
  unfold BlockInfo.from_raw_bytes at he
  split at he
  · exact absurd he (by simp)
  · rename_i magic r1 hm
    split at he
    · exact absurd he (by simp)
    · rename_i size r2 hs
      obtain ⟨h1, h2⟩ := popN_some_len hm
      obtain ⟨h3, h4⟩ := popN_some_len hs
      simp only [Except.ok.injEq, Prod.mk.injEq] at he
      obtain ⟨-, hrest⟩ := he
      subst hrest
      simp only [MAGIC_BYTES, BLOCK_SIZE] at h2 h4
      omega

theorem Block.from_raw_bytes_body_len {buf : List Nat} {sz : Nat} {b : Block}
    {rest : List Nat} (he : Block.from_raw_bytes buf sz = .ok (b, rest)) :
    rest.length ≤ buf.length := by
  unfold Block.from_raw_bytes at he
  split at he
  · exact absurd he (by simp)
  · rename_i hdr r1 h80
    split at he
    · exact absurd he (by simp)
    · split at he
      · exact absurd he (by simp)
      · rename_i cnt r2 hcnt
        split at he
        · exact absurd he (by simp)
        · rename_i dat r3 hdat
          obtain ⟨-, h2⟩ := popN_some_len h80
          obtain ⟨-, h4⟩ := popN_some_len hcnt
          obtain ⟨-, h6⟩ := popN_some_len hdat
          simp only [Except.ok.injEq, Prod.mk.injEq] at he
          obtain ⟨-, hrest⟩ := he
          subst hrest
          omega

/-! ## The scanner (`find_block`, `src/main.rs`) -/

/-- One iteration of the `while` loop in `find_block`: decode a
`BlockInfo`, validate the network (`?` propagates the `bail`), read the
size (its `expect` is the `none` branch), decode the `Block`.  Returns
the pair that `log` would print together with the remaining buffer. -/
def find_block_step (buf : List Nat) (block_height : Nat) :
    Except RunError ((BlockInfo × Block) × List Nat) :=
  match BlockInfo.from_raw_bytes buf block_height with
  | .error e => .error e
  | .ok (block_info, buf1) =>
    match block_info.validate_network with
    | .error e => .error e
    | .ok _ =>
      match block_info.size_as_u32 with
      | none => .error (.panicked "unable to convert hex to u32")
      | some size =>
        match Block.from_raw_bytes buf1 size with
        | .error e => .error e
        | .ok (block, buf2) => .ok ((block_info, block), buf2)

theorem find_block_step_len {buf : List Nat} {bh : Nat}
    {p : BlockInfo × Block} {rest : List Nat}
    (he : find_block_step buf bh = .ok (p, rest)) : rest.length + 8 ≤ buf.length := by
  unfold find_block_step at he
  split at he
  · exact absurd he (by simp)
  · rename_i block_info buf1 hinfo
    split at he
    · exact absurd he (by simp)
    · split at he
      · exact absurd he (by simp)
      · rename_i size hsize
        split at he
        · exact absurd he (by simp)
        · rename_i block buf2 hblk
          simp only [Except.ok.injEq, Prod.mk.injEq] at he
          obtain ⟨-, hrest⟩ := he
          subst hrest
          have l1 := BlockInfo.from_raw_bytes_head_len hinfo
          have l2 := Block.from_raw_bytes_body_len hblk
          omega

/-- `find_block_step` records the height it was given in the decoded
`BlockInfo`. -/
theorem find_block_step_height {buf : List Nat} {bh : Nat}
    {p : BlockInfo × Block} {rest : List Nat}
    (he : find_block_step buf bh = .ok (p, rest)) : p.1.height = bh := by
  unfold find_block_step at he
  split at he
  · exact absurd he (by simp)
  · rename_i block_info buf1 hinfo
    split at he
    · exact absurd he (by simp)
    · split at he
      · exact absurd he (by simp)
      · split at he
        · exact absurd he (by simp)
        · simp only [Except.ok.injEq, Prod.mk.injEq] at he
          obtain ⟨hp, -⟩ := he
          subst hp
          unfold BlockInfo.from_raw_bytes at hinfo
          split at hinfo
          · exact absurd hinfo (by simp)
          · split at hinfo
            · exact absurd hinfo (by simp)
            · simp only [Except.ok.injEq, Prod.mk.injEq] at hinfo
              obtain ⟨hbi, -⟩ := hinfo
              subst hbi
              rfl

/-- The `while !raw_bytes.is_empty()` loop of `find_block`, with
`block_height` the running counter.  On a match the `BlockInfo`/`Block`
pair handed to `log` is returned; stream exhaustion is the
`anyhow!("failed to find block")` error. -/
def find_block_go (buf : List Nat) (height block_height : Nat) :
    Except RunError (BlockInfo × Block) :=
  if buf.isEmpty then .error (.bail "failed to find block")
  else
    match hstep : find_block_step buf block_height with
    | .error e => .error e
    | .ok ((block_info, block), rest) =>
      if block_info.height = height then .ok (block_info, block)
      else find_block_go rest height (block_height + 1)
termination_by buf.length
decreasing_by
  have := find_block_step_len hstep
  omega

/-- `find_block`: the source first calls `raw_bytes.reverse()` and then
only ever pops; in the pop-order representation (see the module comment)
that reversal makes the buffer the file bytes in file order, so here
`raw_bytes` is the stream in file order and the reversal is absorbed by
the representation. -/
def find_block (raw_bytes : List Nat) (height : Nat) :
    Except RunError (BlockInfo × Block) :=
  find_block_go raw_bytes height 0

/-! ## Well-formed streams (spec §6 file format) -/

/-- The mainnet magic bytes `F9 BE B4 D9` in stream order. -/
def mainnetMagic : List Nat := [249, 190, 180, 217]

/-- Little-endian 4-byte encoding of a 32-bit value (the spec's
`payload length N (little-endian unsigned 32-bit)`; the repository only
decodes, the encoder is needed to build streams and to state the §8
round-trip). -/
def le4 (n : Nat) : List Nat :=
  [n % 256, n / 256 % 256, n / 65536 % 256, n / 16777216 % 256]

/-- Stream-order (big-endian) numeric value of a byte list. -/
def beVal (l : List Nat) : Nat := l.foldl (fun acc b => acc * 256 + b) 0

/-- One well-formed record of the stream: an 80-byte header block, a
4-byte entry count, and an opaque payload. -/
structure RawRecord where
  header : List Nat
  count : List Nat
  payload : List Nat

/-- Well-formedness: the fixed-width fields have their widths and the
total payload length fits in a `u32`. -/
def RawRecord.WF (r : RawRecord) : Prop :=
  r.header.length = 80 ∧ r.count.length = 4 ∧ 84 + r.payload.length < 2 ^ 32

/-- The wire form of a record: magic bytes, little-endian payload length
(`84 +` opaque length), header block, entry count, payload. -/
def RawRecord.encode (r : RawRecord) : List Nat :=
  mainnetMagic ++ le4 (84 + r.payload.length) ++ r.header ++ r.count ++ r.payload

/-- A stream of concatenated records. -/
def encodeStream : List RawRecord → List Nat
  | [] => []
  | r :: rs => r.encode ++ encodeStream rs

/-- The header-field decomposition the code performs on an 80-byte header
block (pop-from-the-tail order): each field is cut from the **end** of the
block, innermost bytes reversed. -/
def headerOf (raw : List Nat) : BlockHeader :=
  BlockHeader.mk
    (raw.reverse.take 4)
    ((raw.reverse.drop 4).take 32)
    (((raw.reverse.drop 4).drop 32).take 32)
    ((((raw.reverse.drop 4).drop 32).drop 32).take 4)
    (((((raw.reverse.drop 4).drop 32).drop 32).drop 4).take 4)
    ((((((raw.reverse.drop 4).drop 32).drop 32).drop 4).drop 4).take 4)

/-- The `Block` the code decodes from a well-formed record. -/
def Block.ofRecord (r : RawRecord) : Block :=
  Block.mk (headerOf r.header) r.count r.payload

/-! ## Decoding a well-formed record -/

theorem mainnetMagic_length : mainnetMagic.length = MAGIC_BYTES := rfl

theorem le4_length (n : Nat) : (le4 n).length = BLOCK_SIZE := rfl

/-- Decoding the framing unit of a well-formed record: the magic bytes and
the size bytes, with the record body and the rest of the stream left
over. -/
theorem BlockInfo.decode_record_head (r : RawRecord) (s : List Nat) (bh : Nat) :
    BlockInfo.from_raw_bytes (r.encode ++ s) bh =
      .ok (BlockInfo.mk bh mainnetMagic (le4 (84 + r.payload.length)),
        r.header ++ (r.count ++ (r.payload ++ s))) := by
  have e1 : popN MAGIC_BYTES
      (mainnetMagic ++ (le4 (84 + r.payload.length) ++ (r.header ++ (r.count ++ (r.payload ++ s))))) =
      some (mainnetMagic, le4 (84 + r.payload.length) ++ (r.header ++ (r.count ++ (r.payload ++ s)))) :=
    popN_append_of_len _ mainnetMagic_length
  have e2 : popN BLOCK_SIZE
      (le4 (84 + r.payload.length) ++ (r.header ++ (r.count ++ (r.payload ++ s)))) =
      some (le4 (84 + r.payload.length), r.header ++ (r.count ++ (r.payload ++ s))) :=
    popN_append_of_len _ (le4_length _)
  unfold BlockInfo.from_raw_bytes
  simp only [RawRecord.encode, List.append_assoc, e1, e2]

/-- The network check passes on any `BlockInfo` carrying the mainnet magic
bytes, whatever its height and size fields. -/
theorem BlockInfo.validate_network_mainnet (hgt : Nat) (sz : List Nat) :
    (BlockInfo.mk hgt mainnetMagic sz).validate_network = .ok () := by
  unfold BlockInfo.validate_network
  rw [if_neg]
  simp [BlockInfo.network_hex, mainnetMagic, MAINNET_HEX, encodeHexDigits]

/-- `size_as_u32` inverts the little-endian encoding for any value that
fits in a `u32`. -/
theorem BlockInfo.size_as_u32_le4 (hgt : Nat) (m : List Nat) {n : Nat} (hn : n < 2 ^ 32) :
    (BlockInfo.mk hgt m (le4 n)).size_as_u32 = some n := by
  have hrev : (le4 n).reverse =
      [n / 16777216 % 256, n / 65536 % 256, n / 256 % 256, n % 256] := rfl
  unfold BlockInfo.size_as_u32
  rw [show (BlockInfo.mk hgt m (le4 n)).size = le4 n from rfl, hrev]
  rw [fromStrRadix16_encode4 _ _ _ _ (by omega) (by omega) (by omega) (by omega)]
  congr 1
  omega

/-- `BlockHeader::from_raw_bytes` on an 80-byte block never panics and
produces exactly the tail-first decomposition `headerOf`. -/
theorem BlockHeader.from_raw_bytes_spec {raw : List Nat} (h : raw.length = 80) :
    BlockHeader.from_raw_bytes raw = .ok (headerOf raw) := by
  have hl : raw.reverse.length = 80 := by simp [h]
  have e1 : popN BLOCK_HEADER_VERSION raw.reverse =
      some (raw.reverse.take 4, raw.reverse.drop 4) :=
    popN_take (by simp [BLOCK_HEADER_VERSION, hl])
  have e2 : popN PREVIOUS_BLOCK_HEADER_HASH (raw.reverse.drop 4) =
      some ((raw.reverse.drop 4).take 32, (raw.reverse.drop 4).drop 32) :=
    popN_take (by simp [PREVIOUS_BLOCK_HEADER_HASH, hl])
  have e3 : popN MERKLE_ROOT_HASH ((raw.reverse.drop 4).drop 32) =
      some (((raw.reverse.drop 4).drop 32).take 32, ((raw.reverse.drop 4).drop 32).drop 32) :=
    popN_take (by simp [MERKLE_ROOT_HASH, hl])
  have e4 : popN UNIX_EPOCH_TIME (((raw.reverse.drop 4).drop 32).drop 32) =
      some ((((raw.reverse.drop 4).drop 32).drop 32).take 4,
        (((raw.reverse.drop 4).drop 32).drop 32).drop 4) :=
    popN_take (by simp [UNIX_EPOCH_TIME, hl])
  have e5 : popN TARGET ((((raw.reverse.drop 4).drop 32).drop 32).drop 4) =
      some (((((raw.reverse.drop 4).drop 32).drop 32).drop 4).take 4,
        ((((raw.reverse.drop 4).drop 32).drop 32).drop 4).drop 4) :=
    popN_take (by simp [TARGET, hl])
  have e6 : popN NONCE (((((raw.reverse.drop 4).drop 32).drop 32).drop 4).drop 4) =
      some ((((((raw.reverse.drop 4).drop 32).drop 32).drop 4).drop 4).take 4,
        (((((raw.reverse.drop 4).drop 32).drop 32).drop 4).drop 4).drop 4) :=
    popN_take (by simp [NONCE, hl])
  unfold BlockHeader.from_raw_bytes
  simp only [e1, e2, e3, e4, e5, e6]
  rfl

/-- Decoding the body of a well-formed record: the 80-byte header block is
decomposed by `headerOf`, the count and payload are cut at their declared
widths, and the rest of the stream is left over. -/
theorem Block.decode_record_body (r : RawRecord) (hwf : r.WF) (s : List Nat) :
    Block.from_raw_bytes (r.header ++ (r.count ++ (r.payload ++ s)))
        (84 + r.payload.length) =
      .ok (Block.ofRecord r, s) := by
  obtain ⟨hh, hc, hlt⟩ := hwf
  have hsub : sub32 (84 + r.payload.length) (BLOCK_HEADER + TX_COUNT) =
      r.payload.length := by
    rw [show BLOCK_HEADER + TX_COUNT = 84 from rfl, sub32_of_le (by omega)]
    omega
  have e1 : popN BLOCK_HEADER (r.header ++ (r.count ++ (r.payload ++ s))) =
      some (r.header, r.count ++ (r.payload ++ s)) :=
    popN_append_of_len _ (by rw [hh]; rfl)
  have e2 : popN TX_COUNT (r.count ++ (r.payload ++ s)) =
      some (r.count, r.payload ++ s) :=
    popN_append_of_len _ (by rw [hc]; rfl)
  have e3 : popN (r.payload.length) (r.payload ++ s) = some (r.payload, s) :=
    popN_append _ _
  have e4 : BlockHeader.from_raw_bytes r.header = .ok (headerOf r.header) :=
    BlockHeader.from_raw_bytes_spec hh
  unfold Block.from_raw_bytes
  rw [hsub]
  simp only [e1, e4, e2, e3]
  rfl

theorem encode_append_isEmpty (r : RawRecord) (s : List Nat) :
    (r.encode ++ s).isEmpty = false := by
  simp [RawRecord.encode, mainnetMagic]

/-- One loop iteration on a well-formed record at the head of the stream:
no panic, no network failure, and the iteration hands back exactly the
record's decode and the remaining stream. -/
theorem find_block_step_record (r : RawRecord) (hwf : r.WF) (s : List Nat) (bh : Nat) :
    find_block_step (r.encode ++ s) bh =
      .ok ((BlockInfo.mk bh mainnetMagic (le4 (84 + r.payload.length)),
        Block.ofRecord r), s) := by
  have e1 := BlockInfo.decode_record_head r s bh
  have e2 := BlockInfo.validate_network_mainnet bh (le4 (84 + r.payload.length))
  have e3 : (BlockInfo.mk bh mainnetMagic (le4 (84 + r.payload.length))).size_as_u32 =
      some (84 + r.payload.length) :=
    BlockInfo.size_as_u32_le4 bh mainnetMagic hwf.2.2
  have e4 := Block.decode_record_body r hwf s
  unfold find_block_step
  simp only [e1, e2, e3, e4]

/-- The scanner loop on a stream of well-formed records: starting the
running counter at `bh`, it succeeds exactly on the `(height - bh)`-th
record of the remaining stream (when `bh ≤ height` and that record
exists) and reports `failed to find block` otherwise. -/
theorem find_block_go_spec (rs : List RawRecord) (height : Nat) :
    ∀ bh, (∀ r ∈ rs, r.WF) →
      find_block_go (encodeStream rs) height bh =
        if bh ≤ height then
          match rs[height - bh]? with
          | some r => .ok (BlockInfo.mk height mainnetMagic
              (le4 (84 + r.payload.length)), Block.ofRecord r)
          | none => .error (.bail "failed to find block")
        else .error (.bail "failed to find block") := by
  induction rs with
  | nil =>
    intro bh _
    simp only [encodeStream]
    unfold find_block_go
    simp [List.getElem?_nil]
  | cons r rs ih =>
    intro bh hwf
    have hr : r.WF := hwf r (by simp)
    have hrs : ∀ q ∈ rs, q.WF := fun q hq => hwf q (by simp [hq])
    rw [show encodeStream (r :: rs) = r.encode ++ encodeStream rs from rfl]
    unfold find_block_go
    rw [encode_append_isEmpty r (encodeStream rs)]
    simp only [Bool.false_eq_true, if_false]
    split
    · rename_i e hstep
      rw [find_block_step_record r hr _ bh] at hstep
      exact absurd hstep (by simp)
    · rename_i bi blk rest hstep
      rw [find_block_step_record r hr _ bh] at hstep
      simp only [Except.ok.injEq, Prod.mk.injEq] at hstep
      obtain ⟨⟨hbi, hblk⟩, hrest⟩ := hstep
      subst hbi hblk hrest
      by_cases hbh : bh = height
      · subst hbh
        rw [if_pos rfl, if_pos (Nat.le_refl bh), Nat.sub_self]
        simp [List.getElem?_cons_zero]
      · rw [if_neg (fun hcon => hbh hcon)]
        rw [ih (bh + 1) hrs]
        by_cases hle : bh ≤ height
        · rw [if_pos hle, if_pos (by omega : bh + 1 ≤ height)]
          rw [show height - bh = (height - (bh + 1)) + 1 by omega,
            List.getElem?_cons_succ]
        · rw [if_neg hle, if_neg (by omega : ¬ bh + 1 ≤ height)]

/-- `from_str_radix` on the hex encoding of any 4-byte vector is the
stream-order value `beVal`. -/
theorem fromStrRadix16_encode_beVal (l : List Nat) (hl : l.length = 4)
    (hb : ∀ x ∈ l, x < 256) :
    fromStrRadix16 (encodeHexDigits l) = some (beVal l) := by
  rcases l with _ | ⟨a, _ | ⟨b, _ | ⟨c, _ | ⟨d, _ | ⟨e, tl⟩⟩⟩⟩⟩
  · simp at hl
  · simp at hl
  · simp at hl
  · simp at hl
  · rw [fromStrRadix16_encode4 a b c d (hb a (by simp)) (hb b (by simp))
      (hb c (by simp)) (hb d (by simp))]
    simp only [beVal, List.foldl]
    exact congrArg some (by omega)
  · simp only [List.length_cons] at hl
    omega

/-! ## Claims -/

/-- C1: the spec requires `BlockHeader::from_raw_bytes` to partition its
80-byte input front-to-back (version from the first 4 bytes, nonce from
the last 4).  Evaluating the code on the header block `0, 1, ..., 79`
shows the opposite: the version field is cut from the **last** four bytes
(in reversed order, `79, 78, 77, 76`) and the nonce from the **first**
four (`3, 2, 1, 0`), while the first four bytes of the input are
`0, 1, 2, 3`. -/
theorem blockHeader_field_order_eval :
    (BlockHeader.from_raw_bytes (List.range 80)).map
        (fun bh => (bh.version, bh.nonce)) =
      .ok ([79, 78, 77, 76], [3, 2, 1, 0])
    ∧ (List.range 80).take 4 = [0, 1, 2, 3]
    ∧ (List.range 80).drop 76 = [76, 77, 78, 79] := by
  refine ⟨?_, ?_, ?_⟩ <;> rfl

/-- C3: a fixed-width read on a buffer that is too short does not return
an error value: it panics (`expect`), terminating the process.  Evaluated
on a 3-byte buffer (magic bytes), a 5-byte buffer (size), and a 1-byte
buffer (header block). -/
theorem short_read_behaviour :
    BlockInfo.from_raw_bytes [249, 190, 180] 0 =
      .error (.panicked "expected a value for magic_bytes")
    ∧ BlockInfo.from_raw_bytes [249, 190, 180, 217, 29] 0 =
      .error (.panicked "expected a value for size")
    ∧ Block.from_raw_bytes [0] 285 =
      .error (.panicked "expected a value for block_header")
    ∧ Block.from_raw_bytes (List.replicate 81 0) 285 =
      .error (.panicked "expected a value for tx_count")
    ∧ Block.from_raw_bytes (List.replicate 84 0) 285 =
      .error (.panicked "expected a value for tx_data") := by
  refine ⟨?_, ?_, ?_, ?_, ?_⟩ <;> rfl

/-- C4: `Block::from_raw_bytes` does not guard `payload_length < 84`: the
`u32` subtraction underflows (wrapping to `4294967295` in release builds,
panicking outright in debug builds), after which the `tx_data` pops panic
on any real buffer.  Evaluated at `block_size = 83` on a 100-byte
buffer. -/
theorem payload_underflow_behaviour :
    sub32 83 (BLOCK_HEADER + TX_COUNT) = 4294967295
    ∧ Block.from_raw_bytes (List.replicate 100 0) 83 =
      .error (.panicked "expected a value for tx_data") := by
  refine ⟨?_, ?_⟩ <;> rfl

/-- C6: on the concrete framing unit `F9 BE B4 D9 1D 01 00 00` decoded at
height 0, the network check succeeds and the decoded size is 285. -/
theorem first_framing_unit_eval :
    BlockInfo.from_raw_bytes [249, 190, 180, 217, 29, 1, 0, 0] 0 =
      .ok (BlockInfo.mk 0 [249, 190, 180, 217] [29, 1, 0, 0], [])
    ∧ (BlockInfo.mk 0 [249, 190, 180, 217] [29, 1, 0, 0]).validate_network = .ok ()
    ∧ (BlockInfo.mk 0 [249, 190, 180, 217] [29, 1, 0, 0]).size_as_u32 = some 285 := by
  refine ⟨?_, ?_, ?_⟩ <;> rfl

/-- C9: the scanner is a pure function of the stream and the height:
two runs on identical copies of the stream with the same height return
identical results (there is no persisted state). -/
theorem find_block_deterministic (s₁ s₂ : List Nat) (h₁ h₂ : Nat)
    (hs : s₁ = s₂) (hh : h₁ = h₂) : find_block s₁ h₁ = find_block s₂ h₂ := by
  subst hs hh
  rfl

/-- Witness for C9 at a concrete stream and height. -/
theorem find_block_deterministic_witness :
    find_block [249, 190, 180] 7 = find_block [249, 190, 180] 7 :=
  find_block_deterministic [249, 190, 180] [249, 190, 180] 7 7 rfl rfl

/-- C5: network validation succeeds exactly on the magic bytes
`F9 BE B4 D9`, independently of the height and size fields. -/
theorem validate_network_accepts_only_mainnet (hgt : Nat) (sz : List Nat)
    (a b c d : Nat) (ha : a < 256) (hb : b < 256) (hc : c < 256) (hd : d < 256) :
    (BlockInfo.mk hgt [a, b, c, d] sz).validate_network = .ok () ↔
      (a = 249 ∧ b = 190 ∧ c = 180 ∧ d = 217) := by
  have key : (BlockInfo.mk hgt [a, b, c, d] sz).network_hex = MAINNET_HEX ↔
      (a = 249 ∧ b = 190 ∧ c = 180 ∧ d = 217) := by
    show encodeHexDigits [a, b, c, d] = MAINNET_HEX ↔ _
    simp only [encodeHexDigits, MAINNET_HEX, List.cons.injEq, and_true]
    omega
  unfold BlockInfo.validate_network
  by_cases hcond : (BlockInfo.mk hgt [a, b, c, d] sz).network_hex = MAINNET_HEX
  · rw [if_neg (by simpa using hcond)]
    exact ⟨fun _ => key.mp hcond, fun _ => rfl⟩
  · rw [if_pos hcond]
    exact ⟨fun hcontra => absurd hcontra (by simp),
      fun hres => absurd (key.mpr hres) hcond⟩

/-- Witness for C5 at the mainnet magic bytes. -/
theorem validate_network_accepts_only_mainnet_witness :
    (BlockInfo.mk 0 [249, 190, 180, 217] [29, 1, 0, 0]).validate_network = .ok () ↔
      (249 = 249 ∧ 190 = 190 ∧ 180 = 180 ∧ 217 = 217) :=
  validate_network_accepts_only_mainnet 0 [29, 1, 0, 0] 249 190 180 217
    (by decide) (by decide) (by decide) (by decide)

/-- C7: decoding a 4-byte size field as little-endian (`size_as_u32`) and
re-encoding the value little-endian returns the original bytes. -/
theorem size_le_roundtrip (hgt : Nat) (m : List Nat) (a b c d : Nat)
    (ha : a < 256) (hb : b < 256) (hc : c < 256) (hd : d < 256) :
    (BlockInfo.mk hgt m [a, b, c, d]).size_as_u32 =
      some (((d * 256 + c) * 256 + b) * 256 + a)
    ∧ le4 (((d * 256 + c) * 256 + b) * 256 + a) = [a, b, c, d] := by
  constructor
  · show fromStrRadix16 (encodeHexDigits [d, c, b, a]) = _
    exact fromStrRadix16_encode4 d c b a hd hc hb ha
  · unfold le4
    simp only [List.cons.injEq, and_true]
    omega

/-- Witness for C7 at the size field `1D 01 00 00` (value 285). -/
theorem size_le_roundtrip_witness :
    (BlockInfo.mk 0 [249, 190, 180, 217] [29, 1, 0, 0]).size_as_u32 =
      some (((0 * 256 + 0) * 256 + 1) * 256 + 29)
    ∧ le4 (((0 * 256 + 0) * 256 + 1) * 256 + 29) = [29, 1, 0, 0] :=
  size_le_roundtrip 0 [249, 190, 180, 217] 29 1 0 0
    (by decide) (by decide) (by decide) (by decide)

/-- C10: with a 4-byte stored field, none of the numeric getters can
reach the `unable to convert hex to u32` panic: an 8-hex-digit string of
byte digits always parses as a `u32`. -/
theorem numeric_getters_total (hgt : Nat) (m p mr td : List Nat) (bh : BlockHeader)
    (a b c d : Nat) (ha : a < 256) (hb : b < 256) (hc : c < 256) (hd : d < 256) :
    ((BlockInfo.mk hgt m [a, b, c, d]).size_as_u32).isSome = true
    ∧ ((Block.mk bh [a, b, c, d] td).tx_count_u32).isSome = true
    ∧ ((BlockHeader.mk [a, b, c, d] p mr [a, b, c, d] [a, b, c, d]
        [a, b, c, d]).version_u32).isSome = true
    ∧ ((BlockHeader.mk [a, b, c, d] p mr [a, b, c, d] [a, b, c, d]
        [a, b, c, d]).unix_epoch_time_u32).isSome = true
    ∧ ((BlockHeader.mk [a, b, c, d] p mr [a, b, c, d] [a, b, c, d]
        [a, b, c, d]).target_u32).isSome = true
    ∧ ((BlockHeader.mk [a, b, c, d] p mr [a, b, c, d] [a, b, c, d]
        [a, b, c, d]).nonce_u32).isSome = true := by
  have h1 := fromStrRadix16_encode4 a b c d ha hb hc hd
  have h2 := fromStrRadix16_encode4 d c b a hd hc hb ha
  refine ⟨?_, ?_, ?_, ?_, ?_, ?_⟩
  · show (fromStrRadix16 (encodeHexDigits [d, c, b, a])).isSome = true
    rw [h2]; rfl
  · show (fromStrRadix16 (encodeHexDigits [a, b, c, d])).isSome = true
    rw [h1]; rfl
  · show (fromStrRadix16 (encodeHexDigits [a, b, c, d])).isSome = true
    rw [h1]; rfl
  · show (fromStrRadix16 (encodeHexDigits [a, b, c, d])).isSome = true
    rw [h1]; rfl
  · show (fromStrRadix16 (encodeHexDigits [a, b, c, d])).isSome = true
    rw [h1]; rfl
  · show (fromStrRadix16 (encodeHexDigits [a, b, c, d])).isSome = true
    rw [h1]; rfl

/-- Witness for C10 at a concrete field value. -/
theorem numeric_getters_total_witness :
    ((BlockInfo.mk 0 [] [29, 1, 0, 0]).size_as_u32).isSome = true
    ∧ ((Block.mk (headerOf (List.replicate 80 0)) [29, 1, 0, 0]
        []).tx_count_u32).isSome = true
    ∧ ((BlockHeader.mk [29, 1, 0, 0] [] [] [29, 1, 0, 0] [29, 1, 0, 0]
        [29, 1, 0, 0]).version_u32).isSome = true
    ∧ ((BlockHeader.mk [29, 1, 0, 0] [] [] [29, 1, 0, 0] [29, 1, 0, 0]
        [29, 1, 0, 0]).unix_epoch_time_u32).isSome = true
    ∧ ((BlockHeader.mk [29, 1, 0, 0] [] [] [29, 1, 0, 0] [29, 1, 0, 0]
        [29, 1, 0, 0]).target_u32).isSome = true
    ∧ ((BlockHeader.mk [29, 1, 0, 0] [] [] [29, 1, 0, 0] [29, 1, 0, 0]
        [29, 1, 0, 0]).nonce_u32).isSome = true :=
  numeric_getters_total 0 [] [] [] [] (headerOf (List.replicate 80 0)) 29 1 0 0
    (by decide) (by decide) (by decide) (by decide)

/-- C8: the decoded `tx_count` field holds the 4 count bytes in file
order, and the `tx_count()` getter is their stream-order (big-endian)
value, with no byte reversal. -/
theorem tx_count_stream_order (raw_bytes : List Nat) (block_size : Nat)
    (blk : Block) (rest : List Nat)
    (hbytes : ∀ x ∈ raw_bytes, x < 256)
    (h : Block.from_raw_bytes raw_bytes block_size = .ok (blk, rest)) :
    blk.tx_count = (raw_bytes.drop 80).take 4
    ∧ blk.tx_count_u32 = some (beVal ((raw_bytes.drop 80).take 4)) := by
  unfold Block.from_raw_bytes at h
  split at h
  · exact absurd h (by simp)
  · rename_i hdr r1 h80
    split at h
    · exact absurd h (by simp)
    · split at h
      · exact absurd h (by simp)
      · rename_i cnt r2 hcnt
        split at h
        · exact absurd h (by simp)
        · rename_i dat r3 hdat
          simp only [Except.ok.injEq, Prod.mk.injEq] at h
          obtain ⟨hblk, -⟩ := h
          subst hblk
          obtain ⟨hle80, ht80, hr80⟩ := popN_eq_some_iff.mp h80
          obtain ⟨hle4, ht4, hr4⟩ := popN_eq_some_iff.mp hcnt
          subst hr80 ht4
          simp only [BLOCK_HEADER, TX_COUNT] at hle80 hle4 ⊢
          rw [List.length_drop] at hle4
          have hcnt4 : ((raw_bytes.drop 80).take 4).length = 4 := by
            rw [List.length_take, List.length_drop]
            omega
          have hcntmem : ∀ x ∈ (raw_bytes.drop 80).take 4, x < 256 :=
            fun x hx => hbytes x (List.mem_of_mem_drop (List.mem_of_mem_take hx))
          exact ⟨trivial, fromStrRadix16_encode_beVal _ hcnt4 hcntmem⟩

/-- Witness for C8 on a concrete 84-byte record body. -/
theorem tx_count_stream_order_witness :
    (Block.mk (headerOf (List.replicate 80 0)) [0, 0, 1, 0] []).tx_count =
      (((List.replicate 80 0 ++ [0, 0, 1, 0]) : List Nat).drop 80).take 4
    ∧ (Block.mk (headerOf (List.replicate 80 0)) [0, 0, 1, 0] []).tx_count_u32 =
      some (beVal ((((List.replicate 80 0 ++ [0, 0, 1, 0]) : List Nat).drop 80).take 4)) :=
  tx_count_stream_order (List.replicate 80 0 ++ [0, 0, 1, 0]) 84
    (Block.mk (headerOf (List.replicate 80 0)) [0, 0, 1, 0] []) []
    (by decide) (by rfl)

/-- C2: on a stream of `k` well-formed records, requesting height
`h < k` returns exactly the `h`-th record (its framing info and its
decoded body) and requesting `h ≥ k` reports `failed to find block`
(Not Found). -/
theorem find_block_well_formed (rs : List RawRecord) (height : Nat)
    (hwf : ∀ r ∈ rs, r.WF) :
    (∀ hk : height < rs.length,
      find_block (encodeStream rs) height =
        .ok (BlockInfo.mk height mainnetMagic
            (le4 (84 + (rs.get ⟨height, hk⟩).payload.length)),
          Block.ofRecord (rs.get ⟨height, hk⟩)))
    ∧ (rs.length ≤ height →
      find_block (encodeStream rs) height =
        .error (.bail "failed to find block")) := by
  have h := find_block_go_spec rs height 0 hwf
  rw [Nat.sub_zero] at h
  constructor
  · intro hk
    unfold find_block
    rw [h, if_pos (Nat.zero_le height), List.getElem?_eq_getElem hk]
    simp [List.get_eq_getElem]
  · intro hk
    unfold find_block
    rw [h, if_pos (Nat.zero_le height), List.getElem?_eq_none hk]

/-- Witness for C2 on a one-record stream queried at height 0. -/
theorem find_block_well_formed_witness :
    find_block (encodeStream [RawRecord.mk (List.replicate 80 0) [0, 0, 1, 0] []]) 0 =
      .ok (BlockInfo.mk 0 mainnetMagic
          (le4 (84 + (([RawRecord.mk (List.replicate 80 0) [0, 0, 1, 0]
            []].get ⟨0, by decide⟩).payload.length))),
        Block.ofRecord ([RawRecord.mk (List.replicate 80 0) [0, 0, 1, 0]
          []].get ⟨0, by decide⟩)) :=
  (find_block_well_formed [RawRecord.mk (List.replicate 80 0) [0, 0, 1, 0] []] 0
    (fun r hr => by
      simp only [List.mem_singleton] at hr
      subst hr
      exact ⟨by decide, by decide, by decide⟩)).1 (by decide)
